import Mathlib

/-!
# Verification of the quantipy data-preparation pipeline

A shallow embedding of `quantipy/analysis.py` (class `DataPreparation`).

Modelling conventions:
* A pandas DataFrame with a datetime index and the columns `Adj Close` and
  `Change` is a `DF`: a list of dates (days since an epoch, `Nat`) and two
  parallel columns of cells.  A cell is `Option ℚ`; `none` models a missing
  value (`NaN` in the float world).
* Float arithmetic is modelled over `ℚ`.  The non-finite results the
  reference can produce (division of a float by `0.0` yields `inf`/`nan`
  with a warning, not an exception) are modelled by the `none` cell /
  the `Eff.nan` sentinel; no theorem below depends on the exact value of
  such a cell.
* `np.percentile(a, q)` with the default linear interpolation is
  `percentileLinear` over the sorted array; `np.sort` is modelled by
  `List.insertionSort (· ≤ ·)` (any stable ascending sort).
* The unbounded retry loop of `determine_effect` (lines 197-209 of the
  source) is given two renderings: `scanLoop`, a fuel-indexed transcription
  of the loop where `none` means "the loop is still running after the given
  number of iterations", and `lookupFirst`, its denotation — the first row
  of the frame at or after the target date whose cell is not a zero price.
  When no such row exists `lookupFirst` is `none` and the reference loop
  never terminates (`scanLoop` returns `none` for every fuel).
-/

/-- One value stored in the output effect table: the instrument identifier,
a date, a numeric (rational) entry, a non-finite float (`NaN`), or the
mark that the reference never produces a value here because its retry
loop diverges. -/
inductive Cell where
  | str (s : String)
  | date (d : Nat)
  | num (q : ℚ)
  | nan
  | diverge
deriving Repr, DecidableEq

/-- Result of one horizon lookup in `determine_effect`: the string `"N/A"`
(the target date is past the end of the series), a numeric forward return,
a non-finite float, or divergence of the retry loop. -/
inductive Eff where
  | na
  | num (q : ℚ)
  | nan
  | diverge
deriving Repr, DecidableEq

/-- A pandas DataFrame as used by the pipeline: the datetime index and the
columns `Adj Close` and `Change`, as parallel lists.  A `none` cell is a
missing (`NaN`) value. -/
structure DF where
  dates : List Nat
  close : List (Option ℚ)
  change : List (Option ℚ)
deriving Repr, DecidableEq

/-- `dataframe.index[-1]`, the last available date.  The source raises
`IndexError` on an empty frame; theorems that use this assume a nonempty
index. -/
def DF.lastDate (df : DF) : Nat :=
  df.dates.getLastD 0

/-- `dataframe.loc[d, "Adj Close"]`: `some cell` when the date is in the
index (the cell itself may be `none`, i.e. `NaN`), `none` when the lookup
raises `KeyError`. -/
def dfLoc (df : DF) (d : Nat) : Option (Option ℚ) :=
  ((df.dates.zip df.close).find? fun x => x.1 == d).map (·.2)

/-- The `Adj Close` cell at a date of the frame's own index.  Conflates the
`KeyError` case with a missing cell; every use below is at a date that is
in the index. -/
def closeAt (df : DF) (d : Nat) : Option ℚ :=
  match dfLoc df d with
  | some c => c
  | none => none

/-- The `Change` cell at a date of the frame's own index. -/
def changeAt (df : DF) (d : Nat) : Option ℚ :=
  match ((df.dates.zip df.change).find? fun x => x.1 == d).map (·.2) with
  | some c => c
  | none => none

/-! ## `determine_change` (analysis.py lines 85-108) -/

/-- One step of the change loop: `(new - old) / old * 100`.  Any operand
that is `NaN` propagates; a zero `old` yields a non-finite float in the
reference (no exception is raised for numpy scalars), modelled as `none`. -/
def changeCell (old new : Option ℚ) : Option ℚ :=
  match old, new with
  | some o, some n => if o = 0 then none else some ((n - o) / o * 100)
  | _, _ => none

/-- The list `changes` built by the loop in `determine_change`: a leading
`0`, then `(new - old) / old * 100` over consecutive pairs of closes.
(On an empty frame the source errors when assigning the column; the empty
case is never used below.) -/
def rawChanges (closes : List (Option ℚ)) : List (Option ℚ) :=
  match closes with
  | [] => []
  | _ :: tail => some 0 :: (closes.zip tail).map fun x => changeCell x.1 x.2

/-- Position of the last `some` cell strictly before `i`, with its value. -/
def prevSome (l : List (Option ℚ)) (i : Nat) : Option (Nat × ℚ) :=
  (List.range i).reverse.findSome? fun j => (l.getD j none).map fun v => (j, v)

/-- Position of the first `some` cell strictly after `i`, with its value. -/
def nextSome (l : List (Option ℚ)) (i : Nat) : Option (Nat × ℚ) :=
  (List.range' (i + 1) (l.length - (i + 1))).findSome? fun j =>
    (l.getD j none).map fun v => (j, v)

/-- `Series.interpolate(method="linear")` at position `i`: a present value
is kept; a gap between two present values is filled linearly by position;
a gap after the last present value is filled with that value (pandas pads
trailing gaps); a gap before the first present value stays missing. -/
def interpAt (l : List (Option ℚ)) (i : Nat) : Option ℚ :=
  match l.getD i none with
  | some v => some v
  | none =>
    match prevSome l i, nextSome l i with
    | some jv, some kv =>
        some (jv.2 + (kv.2 - jv.2) * ((i : ℚ) - (jv.1 : ℚ)) / ((kv.1 : ℚ) - (jv.1 : ℚ)))
    | some jv, none => some jv.2
    | none, _ => none

/-- `dataframe.interpolate(method="linear", inplace=True)` on one column. -/
def interpList (l : List (Option ℚ)) : List (Option ℚ) :=
  (List.range l.length).map (interpAt l)

/-- `determine_change(dataframe, clean=True)`: compute the `Change` column
from the closes, assign it, then linearly interpolate the whole frame in
place (both numeric columns; the index is untouched). -/
def determine_change (df : DF) : DF :=
  { dates := df.dates
    close := interpList df.close
    change := interpList (rawChanges df.close) }

/-! ## `biggest_changes` (analysis.py lines 110-146) -/

/-- `np.sort` on the change values (ascending). -/
def sortChanges (l : List ℚ) : List ℚ :=
  l.insertionSort (· ≤ ·)

/-- The virtual index `(n - 1) * q / 100` at which `np.percentile` reads a
sorted array of length `n` for percentile `q`. -/
def percentileVirtualIndex (sorted : List ℚ) (q : ℚ) : ℚ :=
  ((sorted.length : ℚ) - 1) * q / 100

/-- The value of a sorted array at a (rational) virtual index: the entry at
the floor of the index, moved by the fractional part towards the next
entry (kept unchanged when there is no next entry). -/
def percentileAt (sorted : List ℚ) (h : ℚ) : ℚ :=
  sorted.getD (Int.floor h).toNat 0 +
    (h - ((Int.floor h).toNat : ℚ)) *
      (sorted.getD ((Int.floor h).toNat + 1) (sorted.getD (Int.floor h).toNat 0) -
        sorted.getD (Int.floor h).toNat 0)

/-- `np.percentile(sorted, q)` with the default linear interpolation:
the value at virtual index `(n - 1) * q / 100` of the sorted array,
linearly interpolated between its two neighbouring entries. -/
def percentileLinear (sorted : List ℚ) (q : ℚ) : ℚ :=
  percentileAt sorted (percentileVirtualIndex sorted q)

/-- The threshold `P = np.percentile(np.sort(df.Change.values), q)`.
If any change cell is `NaN` the numpy result is `NaN`, modelled as
`none`. -/
def thresholdP (df : DF) (q : ℚ) : Option ℚ :=
  if df.change.all Option.isSome then
    some (percentileLinear (sortChanges (df.change.filterMap id)) q)
  else none

/-- `change <= P` on one cell; a `NaN` cell compares false. -/
def cellLE (c : Option ℚ) (P : ℚ) : Bool :=
  match c with
  | some v => decide (v ≤ P)
  | none => false

/-- `change > P` on one cell; a `NaN` cell compares false. -/
def cellGT (c : Option ℚ) (P : ℚ) : Bool :=
  match c with
  | some v => decide (P < v)
  | none => false

/-- The `Dates` entry of `biggest_changes` for one frame: the index of
`df[df["Change"] <= P]` when the percentile is at most 50, and of
`df[df["Change"] > P]` otherwise.  A `NaN` threshold selects nothing
(every comparison against `NaN` is false). -/
def selectDates (df : DF) (q : ℚ) : List Nat :=
  match thresholdP df q with
  | none => []
  | some P =>
    if q ≤ 50 then
      ((df.dates.zip df.change).filter fun x => cellLE x.2 P).map (·.1)
    else
      ((df.dates.zip df.change).filter fun x => cellGT x.2 P).map (·.1)

/-! ## `determine_effect` (analysis.py lines 148-217) -/

/-- The six horizons: `("1D", date + timedelta(days=1))` and
`(f"{week}W", date + timedelta(days=week * 7))` for the weeks 1, 4, 12,
26, 52; here as label and day offset. -/
def horizons : List (String × Nat) :=
  ("1D", 1) :: [1, 4, 12, 26, 52].map fun w => (toString w ++ "W", w * 7)

/-- The retry loop of `determine_effect` transcribed with fuel: starting at
calendar day `t`, try `dataframe.loc[t, "Adj Close"]`; a `KeyError`
(absent date) or a zero price moves to the next day; any other cell —
including a `NaN` price, which is not `== 0` — ends the loop.  `none`
means the loop is still running after `fuel` iterations; the reference
runs it without any bound. -/
def scanLoop (df : DF) (t : Nat) : Nat → Option (Option ℚ)
  | 0 => none
  | fuel + 1 =>
    match dfLoc df t with
    | some c => if c = some 0 then scanLoop df (t + 1) fuel else some c
    | none => scanLoop df (t + 1) fuel

/-- Denotation of the retry loop: the cell of the first row (in index
order) whose date is at or after `t` and whose price cell is not a zero
price.  `none` exactly when the reference loop never terminates. -/
def lookupFirst (df : DF) (t : Nat) : Option (Option ℚ) :=
  ((df.dates.zip df.close).find? fun x =>
    decide (t ≤ x.1) && decide (x.2 ≠ some 0)).map (·.2)

/-- One horizon entry of `determine_effect`: `"N/A"` when the target date
is past `dataframe.index[-1]`; otherwise the loop's price is found and the
entry is `(new - old) / old * 100` against the baseline close `old` of the
shock date (a `NaN` operand or zero baseline gives a non-finite float;
a loop that never finds a price gives no entry at all — `Eff.diverge`). -/
def effectCell (df : DF) (old : Option ℚ) (t : Nat) : Eff :=
  if t ≤ df.lastDate then
    match lookupFirst df t with
    | none => .diverge
    | some none => .nan
    | some (some v) =>
      match old with
      | none => .nan
      | some o => if o = 0 then .nan else .num ((v - o) / o * 100)
  else .na

/-- A cell of the `Close` / `Drop` columns. -/
def cellOfPrice : Option ℚ → Cell
  | some q => .num q
  | none => .nan

/-- A cell of one of the six horizon columns; `"N/A"` is stored as the
string the source appends. -/
def cellOfEff : Eff → Cell
  | .na => .str "N/A"
  | .num q => .num q
  | .nan => .nan
  | .diverge => .diverge

/-- One horizon column of `determine_effect`: per shock date `d`, the
effect at target date `d + off` against the baseline close at `d`. -/
def effCol (df : DF) (shockDates : List Nat) (off : Nat) : List Cell :=
  shockDates.map fun d => cellOfEff (effectCell df (closeAt df d) (d + off))

/-- The `effect` dictionary: ten columns in the key order of the literal
at lines 159-170 of the source. -/
structure Effects where
  index : List Cell
  date : List Cell
  close : List Cell
  drop : List Cell
  d1 : List Cell
  w1 : List Cell
  w4 : List Cell
  w12 : List Cell
  w26 : List Cell
  w52 : List Cell
deriving Repr, DecidableEq

/-- The column layout of `pd.DataFrame.from_dict(effects)`: the insertion
order of the dictionary literal. -/
def Effects.toCols (e : Effects) : List (String × List Cell) :=
  [("Index", e.index), ("Date", e.date), ("Close", e.close), ("Drop", e.drop),
   ("1D", e.d1), ("1W", e.w1), ("4W", e.w4), ("12W", e.w12),
   ("26W", e.w26), ("52W", e.w52)]

/-- `determine_effect(dataframe, changes, index)`: one row per shock date,
the identifier, the date, its close and change, and the six horizon
entries at offsets `1` day and `week * 7` days. -/
def determine_effect (df : DF) (shockDates : List Nat) (idx : String) : Effects where
  index := shockDates.map fun _ => Cell.str idx
  date := shockDates.map Cell.date
  close := shockDates.map fun d => cellOfPrice (closeAt df d)
  drop := shockDates.map fun d => cellOfPrice (changeAt df d)
  d1 := effCol df shockDates 1
  w1 := effCol df shockDates (1 * 7)
  w4 := effCol df shockDates (4 * 7)
  w12 := effCol df shockDates (12 * 7)
  w26 := effCol df shockDates (26 * 7)
  w52 := effCol df shockDates (52 * 7)

/-! ## `update_effects`, `check_effect`, `prepare` (analysis.py 219-301) -/

/-- The empty `effects` dictionary literal of `check_effect`. -/
def emptyEffects : Effects where
  index := []
  date := []
  close := []
  drop := []
  d1 := []
  w1 := []
  w4 := []
  w12 := []
  w26 := []
  w52 := []

/-- `update_effects(effects, effect)`: per key, extend the column.  The
two dictionaries always carry the same ten keys (the source asserts so),
hence the extension is componentwise. -/
def update_effects (a b : Effects) : Effects where
  index := a.index ++ b.index
  date := a.date ++ b.date
  close := a.close ++ b.close
  drop := a.drop ++ b.drop
  d1 := a.d1 ++ b.d1
  w1 := a.w1 ++ b.w1
  w4 := a.w4 ++ b.w4
  w12 := a.w12 ++ b.w12
  w26 := a.w26 ++ b.w26
  w52 := a.w52 ++ b.w52

/-- The store `self.data`: instrument identifier to frame, in discovery
(iteration) order. -/
abbrev Store := List (String × DF)

/-- `check_effect(dataframes, changes, index)`: when `index` is not
`"All"`, first the effect of that one instrument, then — in every case —
the effect of each instrument of the store in iteration order.  (`chs`
maps an identifier to the `Dates` entry of `biggest_changes`; a scope
absent from the store raises `KeyError` in the source, modelled by the
empty start, and theorems assume the scope is present.) -/
def check_effect (store : Store) (chs : String → List Nat) (scope : String) : Effects :=
  let init :=
    if scope ≠ "All" then
      match store.lookup scope with
      | some df => update_effects emptyEffects (determine_effect df (chs scope) scope)
      | none => emptyEffects
    else emptyEffects
  store.foldl (fun acc kdf => update_effects acc (determine_effect kdf.2 (chs kdf.1) kdf.1)) init

/-- The error taxonomy of the spec; the `assert` statements of `prepare`
(unknown scope, percentile outside `(0, 100]`) both raise what the spec
names `InvalidArgumentError`. -/
inductive Err where
  | invalidArgument
deriving Repr, DecidableEq

/-- `prepare(percentile, index)`: validate the scope and the percentile,
enrich every stored frame in place with its `Change` column
(`determine_change`), select the shocks at the percentile, and aggregate
the effects.  Returns the output table together with the mutated store. -/
def prepare (store : Store) (percentile : ℚ) (scope : String) :
    Except Err (Effects × Store) :=
  if scope ≠ "All" ∧ (store.lookup scope) = none then .error .invalidArgument
  else if ¬(0 < percentile ∧ percentile ≤ 100) then .error .invalidArgument
  else
    let store' := store.map fun kdf => (kdf.1, determine_change kdf.2)
    .ok (check_effect store'
          (fun k => match store'.lookup k with
                    | some df => selectDates df percentile
                    | none => []) scope,
        store')

/-! ## Helper lemmas -/

/-- Interpolation keeps a column with no missing cell unchanged. -/
theorem interpList_of_all_some (l : List (Option ℚ)) (h : ∀ x ∈ l, x.isSome) :
    interpList l = l := by
  apply List.ext_getElem
  · simp [interpList]
  · intro n h1 h2
    simp only [interpList, List.getElem_map, List.getElem_range]
    obtain ⟨v, hv⟩ := Option.isSome_iff_exists.mp (h l[n] (List.getElem_mem h2))
    simp [interpAt, List.getD_eq_getElem?_getD, List.getElem?_eq_getElem h2, hv]

/-- `find?` returns the entry at the first index satisfying the predicate. -/
theorem find?_first {α : Type} (p : α → Bool) (l : List α) (i : Fin l.length)
    (hp : p (l.get i) = true)
    (hprev : ∀ j : Fin l.length, (j : Nat) < (i : Nat) → p (l.get j) = false) :
    l.find? p = some (l.get i) := by
  induction l with
  | nil => exact absurd i.isLt (by simp)
  | cons a as ih =>
    rcases i with ⟨iv, hiv⟩
    cases iv with
    | zero =>
      simp only [List.get] at hp
      simp [List.find?_cons, hp]
    | succ m =>
      have ha : p a = false := hprev ⟨0, Nat.succ_pos _⟩ (Nat.succ_pos m)
      rw [List.find?_cons, ha]
      have hm : m < as.length := Nat.lt_of_succ_lt_succ hiv
      have := ih ⟨m, hm⟩ (by simpa [List.get] using hp)
        (fun j hj => by
          have := hprev ⟨(j : Nat) + 1, Nat.succ_lt_succ j.isLt⟩ (Nat.succ_lt_succ hj)
          simpa [List.get] using this)
      simpa [List.get] using this

theorem update_empty_left (e : Effects) : update_effects emptyEffects e = e := by
  cases e; simp [update_effects, emptyEffects]

theorem update_empty_right (e : Effects) : update_effects e emptyEffects = e := by
  cases e; simp [update_effects, emptyEffects]

theorem update_assoc (a b c : Effects) :
    update_effects (update_effects a b) c = update_effects a (update_effects b c) := by
  cases a; cases b; cases c; simp [update_effects, List.append_assoc]

/-- Folding `update_effects` over the store factors through the empty table. -/
theorem foldl_update (f : String × DF → Effects) (store : Store) (init : Effects) :
    store.foldl (fun acc kdf => update_effects acc (f kdf)) init =
      update_effects init
        (store.foldl (fun acc kdf => update_effects acc (f kdf)) emptyEffects) := by
  induction store generalizing init with
  | nil => simp [update_empty_right]
  | cons a l ih =>
    simp only [List.foldl_cons]
    rw [ih (update_effects init (f a)), ih (update_effects emptyEffects (f a)),
      update_empty_left, update_assoc]

/-- `lookup` commutes with mapping a function over the stored frames. -/
theorem lookup_map_snd (store : Store) (f : DF → DF) (k : String) :
    (store.map fun kdf => (kdf.1, f kdf.2)).lookup k = (store.lookup k).map f := by
  induction store with
  | nil => simp [List.lookup]
  | cons a l ih =>
    rcases a with ⟨k', df⟩
    simp only [List.map_cons, List.lookup_cons]
    cases h : k == k' <;> simp [h, ih]

/-- When every row at or after `t₀` carries a zero price, the retry loop of
`determine_effect` never terminates: it returns nothing however many
iterations it is granted. -/
theorem scanLoop_never (df : DF) (t₀ : Nat)
    (h : ∀ t, t₀ ≤ t → ∀ c, dfLoc df t = some c → c = some 0) :
    ∀ fuel t, t₀ ≤ t → scanLoop df t fuel = none := by
  intro fuel
  induction fuel with
  | zero => intro t _; rfl
  | succ n ih =>
    intro t ht
    have hnext : t₀ ≤ t + 1 := Nat.le_succ_of_le ht
    unfold scanLoop
    cases hc : dfLoc df t with
    | none => simpa using ih (t + 1) hnext
    | some c =>
      rw [h t ht c hc]
      simpa using ih (t + 1) hnext

/-- The linear-interpolation percentile of a sorted nonempty array is at
least its first (smallest) element, for any percentile in `[0, 100]`. -/
theorem percentileLinear_ge_head (s : List ℚ) (hs : List.Sorted (· ≤ ·) s)
    (hne : s ≠ []) (q : ℚ) (h0 : 0 ≤ q) (h100 : q ≤ 100) :
    s.getD 0 0 ≤ percentileLinear s q := by
  have hn : 0 < s.length := List.length_pos.mpr hne
  have hn1 : (1 : ℚ) ≤ (s.length : ℚ) := by exact_mod_cast hn
  set hq : ℚ := percentileVirtualIndex s q with hq_def
  have hq0 : 0 ≤ hq := by
    rw [hq_def, percentileVirtualIndex]
    apply div_nonneg (mul_nonneg (by linarith) h0) (by norm_num)
  have hqle : hq ≤ (s.length : ℚ) - 1 := by
    rw [hq_def, percentileVirtualIndex, div_le_iff₀ (by norm_num : (0:ℚ) < 100)]
    nlinarith
  have hfl0 : 0 ≤ Int.floor hq := Int.floor_nonneg.mpr hq0
  set k : Nat := (Int.floor hq).toNat with hk_def
  have hkq : (k : ℚ) ≤ hq := by
    have h1 : ((Int.floor hq : ℤ) : ℚ) ≤ hq := Int.floor_le hq
    have h2 : ((k : ℤ) : ℚ) = ((Int.floor hq : ℤ) : ℚ) := by
      rw [hk_def, Int.toNat_of_nonneg hfl0]
    push_cast at h2
    linarith
  have hkn : k < s.length := by
    have h3 : (k : ℚ) + 1 ≤ (s.length : ℚ) := by linarith
    have h4 : k + 1 ≤ s.length := by exact_mod_cast h3
    omega
  have hlo : s.getD 0 0 ≤ s.getD k 0 := by
    rw [List.getD_eq_getElem s 0 hn, List.getD_eq_getElem s 0 hkn]
    have := hs.rel_get_of_le (a := ⟨0, hn⟩) (b := ⟨k, hkn⟩)
      (Fin.mk_le_mk.mpr (Nat.zero_le k))
    simpa [List.get_eq_getElem] using this
  have hhi : s.getD k 0 ≤ s.getD (k + 1) (s.getD k 0) := by
    by_cases hk1 : k + 1 < s.length
    · rw [List.getD_eq_getElem s _ hkn, List.getD_eq_getElem s _ hk1]
      have := hs.rel_get_of_le (a := ⟨k, hkn⟩) (b := ⟨k + 1, hk1⟩)
        (Fin.mk_le_mk.mpr (Nat.le_succ k))
      simpa [List.get_eq_getElem] using this
    · rw [List.getD_eq_default s _ (Nat.le_of_not_lt hk1)]
  have hfrac : 0 ≤ hq - (k : ℚ) := by linarith
  have : s.getD k 0 ≤ percentileAt s hq := by
    rw [percentileAt, ← hk_def]
    nlinarith
  calc s.getD 0 0 ≤ s.getD k 0 := hlo
    _ ≤ percentileAt s hq := this
    _ = percentileLinear s q := by rw [percentileLinear, hq_def]

/-! ## Claims -/

/-- **C9.** For every input and scope, the output effect table has exactly
the columns Index, Date, Close, Drop, 1D, 1W, 4W, 12W, 26W, 52W, in that
fixed order. -/
theorem check_effect_columns (store : Store) (chs : String → List Nat) (scope : String) :
    (check_effect store chs scope).toCols.map Prod.fst =
      ["Index", "Date", "Close", "Drop", "1D", "1W", "4W", "12W", "26W", "52W"] :=
  rfl

/-- **C7.** `prepare` has the precondition that the percentile lies
strictly in `(0, 100]`; for every percentile outside that interval it
fails with `InvalidArgumentError` instead of returning a result. -/
theorem prepare_percentile_invalid (store : Store) (percentile : ℚ) (scope : String)
    (h : ¬(0 < percentile ∧ percentile ≤ 100)) :
    prepare store percentile scope = .error .invalidArgument := by
  rw [prepare]
  by_cases hs : scope ≠ "All" ∧ store.lookup scope = none
  · rw [if_pos hs]
  · rw [if_neg hs, if_pos h]

/-- Witness for C7 at a concrete out-of-range percentile. -/
theorem prepare_percentile_invalid_witness :
    prepare [] 101 "All" = .error .invalidArgument :=
  prepare_percentile_invalid [] 101 "All" (by norm_num)

/-- **C4.** The six forward target dates are exactly D + 1, D + 7, D + 28,
D + 84, D + 182 and D + 364 days (columns 1D, 1W, 4W, 12W, 26W, 52W), and
whenever a target date exceeds the instrument's last available date the
recorded entry for that horizon is the "N/A" sentinel rather than a
number. -/
theorem horizons_and_na (df : DF) (old : Option ℚ) (t : Nat) (h : df.lastDate < t) :
    horizons = [("1D", 1), ("1W", 7), ("4W", 28), ("12W", 84), ("26W", 182), ("52W", 364)]
      ∧ effectCell df old t = Eff.na
      ∧ ∀ (sd : List Nat) (idx : String),
          (determine_effect df sd idx).toCols.drop 4 =
            horizons.map fun hz => (hz.1, sd.map fun d =>
              cellOfEff (effectCell df (closeAt df d) (d + hz.2))) := by
  refine ⟨by rfl, ?_, ?_⟩
  · rw [effectCell, if_neg (by omega)]
  · intro sd idx
    rfl

/-- Witness for C4 at a concrete frame and out-of-range target date. -/
theorem horizons_and_na_witness :
    horizons = [("1D", 1), ("1W", 7), ("4W", 28), ("12W", 84), ("26W", 182), ("52W", 364)]
      ∧ effectCell ⟨[0], [some 1], [some 0]⟩ none 5 = Eff.na
      ∧ ∀ (sd : List Nat) (idx : String),
          (determine_effect ⟨[0], [some 1], [some 0]⟩ sd idx).toCols.drop 4 =
            horizons.map fun hz => (hz.1, sd.map fun d =>
              cellOfEff (effectCell ⟨[0], [some 1], [some 0]⟩
                (closeAt ⟨[0], [some 1], [some 0]⟩ d) (d + hz.2))) :=
  horizons_and_na ⟨[0], [some 1], [some 0]⟩ none 5 (by decide)

/-- Membership in the date column of a filtered frame: a date is kept
exactly when some row carries it and its change cell passes the filter. -/
theorem mem_selCol (dates : List Nat) (cells : List (Option ℚ)) (p : Option ℚ → Bool)
    (d : Nat) (hlen : dates.length = cells.length) :
    d ∈ ((dates.zip cells).filter fun x => p x.2).map (·.1) ↔
      ∃ i, ∃ hi : i < dates.length, dates[i] = d ∧ p (cells.getD i none) = true := by
  constructor
  · intro hd
    obtain ⟨x, hxf, hx1⟩ := List.mem_map.mp hd
    obtain ⟨hxz, hp⟩ := List.mem_filter.mp hxf
    obtain ⟨i, hi, hzi⟩ := List.mem_iff_getElem.mp hxz
    rw [List.length_zip] at hi
    have hi1 : i < dates.length := (lt_min_iff.mp hi).1
    have hi2 : i < cells.length := (lt_min_iff.mp hi).2
    have hx : x = (dates[i], cells[i]) := by rw [← hzi, List.getElem_zip]
    refine ⟨i, hi1, ?_, ?_⟩
    · rw [← hx1, hx]
    · rw [List.getD_eq_getElem cells none hi2]
      have h2 : x.2 = cells[i] := by rw [hx]
      rw [← h2]
      exact hp
  · rintro ⟨i, hi, hdi, hp⟩
    have hi2 : i < cells.length := hlen ▸ hi
    apply List.mem_map.mpr
    refine ⟨(dates[i], cells[i]), List.mem_filter.mpr ⟨?_, ?_⟩, hdi⟩
    · apply List.mem_iff_getElem.mpr
      refine ⟨i, ?_, ?_⟩
      · rw [List.length_zip]
        exact lt_min_iff.mpr ⟨hi, hi2⟩
      · rw [List.getElem_zip]
    · rw [List.getD_eq_getElem cells none hi2] at hp
      exact hp

/-- **C2.** For every change series and percentile `q` in `(0, 100]`, the
shock selector computes `P` as the linear-interpolation percentile of the
full sorted change array, and selects exactly the dates whose change is
`≤ P` when `q ≤ 50` and exactly those whose change is `> P` when
`q > 50`. -/
theorem biggest_changes_spec (dates : List Nat) (chs : List ℚ) (close : List (Option ℚ))
    (q : ℚ) (hlen : dates.length = chs.length) (h0 : 0 < q) (h100 : q ≤ 100) :
    thresholdP ⟨dates, close, chs.map some⟩ q =
        some (percentileLinear (sortChanges chs) q)
      ∧ ∀ d, d ∈ selectDates ⟨dates, close, chs.map some⟩ q ↔
          ∃ i, ∃ hi : i < dates.length, dates[i] = d ∧
            (if q ≤ 50 then chs.getD i 0 ≤ percentileLinear (sortChanges chs) q
             else percentileLinear (sortChanges chs) q < chs.getD i 0) := by
  have hthr : thresholdP ⟨dates, close, chs.map some⟩ q =
      some (percentileLinear (sortChanges chs) q) := by
    simp [thresholdP]
  refine ⟨hthr, ?_⟩
  intro d
  have hlen2 : dates.length = (chs.map some).length := by simpa using hlen
  simp only [selectDates, hthr]
  by_cases hq : q ≤ 50
  · rw [if_pos hq,
      mem_selCol dates (chs.map some)
        (fun c => cellLE c (percentileLinear (sortChanges chs) q)) d hlen2]
    constructor
    · rintro ⟨i, hi, hdi, hp⟩
      have hic : i < chs.length := hlen ▸ hi
      rw [List.getD_eq_getElem _ none (by simpa using hic), List.getElem_map] at hp
      simp only [cellLE, decide_eq_true_eq] at hp
      exact ⟨i, hi, hdi, by rw [if_pos hq, List.getD_eq_getElem chs 0 hic]; exact hp⟩
    · rintro ⟨i, hi, hdi, hp⟩
      have hic : i < chs.length := hlen ▸ hi
      rw [if_pos hq, List.getD_eq_getElem chs 0 hic] at hp
      refine ⟨i, hi, hdi, ?_⟩
      rw [List.getD_eq_getElem _ none (by simpa using hic), List.getElem_map]
      simpa [cellLE] using hp
  · rw [if_neg hq,
      mem_selCol dates (chs.map some)
        (fun c => cellGT c (percentileLinear (sortChanges chs) q)) d hlen2]
    constructor
    · rintro ⟨i, hi, hdi, hp⟩
      have hic : i < chs.length := hlen ▸ hi
      rw [List.getD_eq_getElem _ none (by simpa using hic), List.getElem_map] at hp
      simp only [cellGT, decide_eq_true_eq] at hp
      exact ⟨i, hi, hdi, by rw [if_neg hq, List.getD_eq_getElem chs 0 hic]; exact hp⟩
    · rintro ⟨i, hi, hdi, hp⟩
      have hic : i < chs.length := hlen ▸ hi
      rw [if_neg hq, List.getD_eq_getElem chs 0 hic] at hp
      refine ⟨i, hi, hdi, ?_⟩
      rw [List.getD_eq_getElem _ none (by simpa using hic), List.getElem_map]
      simpa [cellGT] using hp

/-- Witness for C2 at a concrete series and percentile. -/
theorem biggest_changes_spec_witness :
    thresholdP ⟨[10, 20], [none, none], List.map some [1, 3]⟩ 50 =
        some (percentileLinear (sortChanges [1, 3]) 50)
      ∧ ∀ d, d ∈ selectDates ⟨[10, 20], [none, none], List.map some [1, 3]⟩ 50 ↔
          ∃ i, ∃ hi : i < ([10, 20] : List Nat).length, ([10, 20] : List Nat)[i] = d ∧
            (if (50 : ℚ) ≤ 50 then
              ([1, 3] : List ℚ).getD i 0 ≤ percentileLinear (sortChanges [1, 3]) 50
             else percentileLinear (sortChanges [1, 3]) 50 < ([1, 3] : List ℚ).getD i 0) :=
  biggest_changes_spec [10, 20] [1, 3] [none, none] 50 (by decide) (by norm_num) (by norm_num)

/-- With every close present and nonzero, every cell of the raw change
column is present (no `NaN` is produced). -/
theorem rawChanges_map_some_isSome (closes : List ℚ) (hz : ∀ c ∈ closes, c ≠ 0) :
    ∀ x ∈ rawChanges (closes.map some), x.isSome := by
  cases closes with
  | nil => intro x hx; simp [rawChanges] at hx
  | cons c rest =>
    intro x hx
    simp only [List.map_cons, rawChanges] at hx
    rcases List.mem_cons.mp hx with rfl | hx2
    · simp
    · obtain ⟨ab, hab, hfab⟩ := List.mem_map.mp hx2
      obtain ⟨a1, a2⟩ := ab
      obtain ⟨ha, hb⟩ := List.of_mem_zip hab
      rw [← List.map_cons] at ha
      obtain ⟨a, hac, ha1⟩ := List.mem_map.mp ha
      obtain ⟨b, hbc, hb1⟩ := List.mem_map.mp hb
      rw [← hfab, ← ha1, ← hb1]
      simp [changeCell, hz a hac]

theorem rawChanges_length (closes : List (Option ℚ)) :
    (rawChanges closes).length = closes.length := by
  cases closes with
  | nil => rfl
  | cons c rest =>
    simp [rawChanges, List.length_zip]

/-- The raw change at index `j + 1` is `changeCell` of the closes at
`j` and `j + 1`. -/
theorem rawChanges_getD_succ (closes : List (Option ℚ)) (j : Nat)
    (h : j + 1 < closes.length) :
    (rawChanges closes).getD (j + 1) none =
      changeCell (closes.getD j none) (closes.getD (j + 1) none) := by
  cases closes with
  | nil => simp at h
  | cons c rest =>
    simp only [rawChanges, List.getD_cons_succ]
    have hj : j < rest.length := by
      simp only [List.length_cons] at h
      omega
    have hjz : j < (((c :: rest).zip rest).map fun x => changeCell x.1 x.2).length := by
      simp only [List.length_map, List.length_zip, List.length_cons]
      omega
    rw [List.getD_eq_getElem _ none hjz]
    simp only [List.getElem_map, List.getElem_zip]
    have hjn : j < (c :: rest).length := by
      simp only [List.length_cons]
      omega
    rw [List.getD_eq_getElem _ none hjn, List.getD_eq_getElem rest none hj]

/-- **C3.** For every price series (all closes present and nonzero), the
computed change series has change 0 at index 0, and at every index
`i > 0` the change equals
`(close[i] - close[i-1]) / close[i-1] * 100`. -/
theorem determine_change_spec (dates : List Nat) (closes : List ℚ) (chg : List (Option ℚ))
    (hne : closes ≠ []) (hz : ∀ c ∈ closes, c ≠ 0) :
    (determine_change ⟨dates, closes.map some, chg⟩).change.getD 0 none = some 0
    ∧ ∀ i, 0 < i → i < closes.length →
        (determine_change ⟨dates, closes.map some, chg⟩).change.getD i none =
          some ((closes.getD i 0 - closes.getD (i - 1) 0) / closes.getD (i - 1) 0 * 100) := by
  have hch : (determine_change ⟨dates, closes.map some, chg⟩).change
      = rawChanges (closes.map some) := by
    simp only [determine_change]
    exact interpList_of_all_some _ (rawChanges_map_some_isSome closes hz)
  refine ⟨?_, ?_⟩
  · rw [hch]
    cases closes with
    | nil => exact absurd rfl hne
    | cons c rest => simp [rawChanges]
  · intro i hi0 hin
    rw [hch]
    obtain ⟨j, rfl⟩ : ∃ j, i = j + 1 := ⟨i - 1, by omega⟩
    have hin2 : j + 1 < (closes.map some).length := by simpa using hin
    have hjn : j < closes.length := by omega
    have hjn2 : j < (closes.map some).length := by simpa using hjn
    rw [rawChanges_getD_succ _ j hin2,
      List.getD_eq_getElem _ none hjn2, List.getD_eq_getElem _ none hin2]
    simp only [List.getElem_map]
    have hz1 : closes[j] ≠ 0 := hz _ (List.getElem_mem _)
    simp only [changeCell, if_neg hz1, Nat.add_sub_cancel]
    rw [List.getD_eq_getElem closes 0 hin, List.getD_eq_getElem closes 0 hjn]

/-- Witness for C3 at a concrete price series. -/
theorem determine_change_spec_witness :
    (determine_change ⟨[0, 1], List.map some [100, 110], []⟩).change.getD 0 none = some 0
    ∧ ∀ i, 0 < i → i < ([100, 110] : List ℚ).length →
        (determine_change ⟨[0, 1], List.map some [100, 110], []⟩).change.getD i none =
          some ((([100, 110] : List ℚ).getD i 0 - ([100, 110] : List ℚ).getD (i - 1) 0) /
            ([100, 110] : List ℚ).getD (i - 1) 0 * 100) :=
  determine_change_spec [0, 1] [100, 110] [] (by decide) (by norm_num)

/-- **C1.** For a shock date `D` and a horizon whose target date
`T = D + off` is within the series, the recorded forward effect equals
`(foundPrice - close[D]) / close[D] * 100`, where `foundPrice` is the
price at the first date at or after `T` whose recorded price is present
and non-zero (the day-by-day search skips dates that are missing from the
index and entries whose price is zero), and the baseline is the close on
the shock date `D` itself. -/
theorem determine_effect_forward_return (df : DF) (D : Nat) (o : ℚ)
    (hsort : List.Sorted (· < ·) df.dates)
    (hlen : df.close.length = df.dates.length)
    (ho : closeAt df D = some o) (ho0 : o ≠ 0)
    (lbl : String) (off : Nat) (hh : (lbl, off) ∈ horizons)
    (hT : D + off ≤ df.lastDate)
    (i : Nat) (hi : i < df.dates.length)
    (hTi : D + off ≤ df.dates[i])
    (v : ℚ) (hv : df.close.getD i none = some v) (hv0 : v ≠ 0)
    (hfirst : ∀ j, j < i → D + off ≤ df.dates.getD j 0 → df.close.getD j none = some 0) :
    effectCell df (closeAt df D) (D + off) = .num ((v - o) / o * 100)
    ∧ effCol df [D] off = [Cell.num ((v - o) / o * 100)] := by
  have hleneq : (df.dates.zip df.close).length = df.dates.length := by
    rw [List.length_zip, hlen]
    exact min_self _
  have hi2 : i < (df.dates.zip df.close).length := by
    rw [hleneq]
    exact hi
  have hic : i < df.close.length := by
    rw [hlen]
    exact hi
  have hget : (df.dates.zip df.close).get ⟨i, hi2⟩ = (df.dates[i], some v) := by
    rw [List.get_eq_getElem, List.getElem_zip]
    rw [List.getD_eq_getElem _ none hic] at hv
    rw [hv]
  have hfind : (df.dates.zip df.close).find?
      (fun x => decide (D + off ≤ x.1) && decide (x.2 ≠ some 0))
      = some (df.dates[i], some v) := by
    have hmain := find?_first
      (fun x => decide (D + off ≤ x.1) && decide (x.2 ≠ some 0))
      (df.dates.zip df.close) ⟨i, hi2⟩
      (by rw [hget]; simp [hTi, hv0])
      (fun jf hj => by
        have hjd : (jf : Nat) < df.dates.length := lt_trans hj hi
        have hjc : (jf : Nat) < df.close.length := by rw [hlen]; exact hjd
        have hgj : (df.dates.zip df.close).get jf
            = (df.dates.getD (jf : Nat) 0, df.close.getD (jf : Nat) none) := by
          rw [List.get_eq_getElem, List.getElem_zip,
            List.getD_eq_getElem _ 0 hjd, List.getD_eq_getElem _ none hjc]
        by_cases hTj : D + off ≤ df.dates.getD (jf : Nat) 0
        · have h0j := hfirst (jf : Nat) hj hTj
          rw [hgj, h0j]
          simp
        · rw [hgj]
          show (decide (D + off ≤ df.dates.getD (jf : Nat) 0) &&
              decide (df.close.getD (jf : Nat) none ≠ some 0)) = false
          rw [decide_eq_false hTj, Bool.false_and])
    rw [hget] at hmain
    exact hmain
  have hlf : lookupFirst df (D + off) = some (some v) := by
    simp only [lookupFirst]
    rw [hfind]
    rfl
  have hcell : effectCell df (closeAt df D) (D + off) = .num ((v - o) / o * 100) := by
    rw [effectCell, if_pos hT]
    simp only [hlf, ho]
    rw [if_neg ho0]
  refine ⟨hcell, ?_⟩
  simp [effCol, hcell, cellOfEff]

/-- Witness for C1: shock at date 0 with close 100; 1D target date 1 is
missing a valid price (zero entries at dates 1 and 2), the search lands on
date 3 with price 50, effect (50 - 100) / 100 * 100. -/
theorem determine_effect_forward_return_witness :
    effectCell ⟨[0, 1, 2, 3], [some 100, some 0, some 0, some 50], [none, none, none, none]⟩
        (closeAt ⟨[0, 1, 2, 3], [some 100, some 0, some 0, some 50],
          [none, none, none, none]⟩ 0) (0 + 1) =
      .num ((50 - 100) / 100 * 100)
    ∧ effCol ⟨[0, 1, 2, 3], [some 100, some 0, some 0, some 50], [none, none, none, none]⟩
        [0] 1 = [Cell.num ((50 - 100) / 100 * 100)] :=
  determine_effect_forward_return
    ⟨[0, 1, 2, 3], [some 100, some 0, some 0, some 50], [none, none, none, none]⟩
    0 100 (by decide) (by decide) (by decide) (by norm_num) "1D" 1 (by decide)
    (by decide) 3 (by decide) (by decide) 50 (by decide) (by norm_num)
    (by decide)

/-- A frame whose only row at or after date 2 carries a zero price: a
horizon lookup targeting date 2 can never find a valid price. -/
def zeroTailDF : DF :=
  ⟨[0, 1, 2], [some 100, some 50, some 0], [some 0, some (-50), some (-100)]⟩

/-- **C5 (failing input).** For the shock date 1 with the 1D horizon the
target date 2 is within range, yet every entry at or after it has price
zero, so the reference retry loop never terminates — `scanLoop` returns
nothing for every fuel bound and no `DataLookupError` (or any other
failure) is ever raised; the embedded effect entry is the divergence
marker rather than an error value. -/
theorem effect_search_diverges :
    2 ≤ zeroTailDF.lastDate
    ∧ lookupFirst zeroTailDF 2 = none
    ∧ (∀ fuel, scanLoop zeroTailDF 2 fuel = none)
    ∧ effectCell zeroTailDF (some 50) 2 = Eff.diverge := by
  have hall : ∀ t, 2 ≤ t → ∀ c, dfLoc zeroTailDF t = some c → c = some 0 := by
    intro t ht c hc
    by_cases h2 : t = 2
    · subst h2
      have h := (rfl : dfLoc zeroTailDF 2 = some (some 0))
      rw [h] at hc
      exact (Option.some.inj hc).symm
    · have e0 : ((0 : Nat) == t) = false := beq_eq_false_iff_ne.mpr (by omega)
      have e1 : ((1 : Nat) == t) = false := beq_eq_false_iff_ne.mpr (by omega)
      have e2 : ((2 : Nat) == t) = false := beq_eq_false_iff_ne.mpr (by omega)
      have hn : dfLoc zeroTailDF t = none := by
        simp [dfLoc, zeroTailDF, List.find?_cons, e0, e1, e2]
      rw [hn] at hc
      exact absurd hc (by simp)
  exact ⟨by decide, by decide,
    fun fuel => scanLoop_never zeroTailDF 2 hall fuel 2 (le_refl 2),
    by decide⟩

/-- **C6.** When the aggregation scope is a specific instrument (present
in the store and not `"All"`), the output is the effect rows of that one
instrument followed by the rows of every instrument in store order — the
requested instrument's rows appear twice; with scope `"All"` the output is
exactly the concatenation over the store, one block per instrument. -/
theorem check_effect_scope (store : Store) (chs : String → List Nat) (scope : String)
    (df : DF) (hs : scope ≠ "All") (hl : store.lookup scope = some df) :
    check_effect store chs scope =
      update_effects (determine_effect df (chs scope) scope)
        (check_effect store chs "All")
    ∧ check_effect store chs "All" =
        (store.map fun kdf => determine_effect kdf.2 (chs kdf.1) kdf.1).foldl
          update_effects emptyEffects := by
  constructor
  · rw [check_effect, check_effect]
    simp only [if_pos hs, hl, if_neg (by simp : ¬("All" : String) ≠ "All")]
    rw [update_empty_left,
      foldl_update (fun kdf => determine_effect kdf.2 (chs kdf.1) kdf.1) store
        (determine_effect df (chs scope) scope)]
  · rw [check_effect]
    simp only [if_neg (by simp : ¬("All" : String) ≠ "All")]
    rw [List.foldl_map]

/-- Witness for C6 on a one-instrument store with scope `"A"`. -/
theorem check_effect_scope_witness :
    check_effect [("A", ⟨[0], [some 1], [some 0]⟩)] (fun k => if k = "A" then [0] else []) "A" =
      update_effects
        (determine_effect ⟨[0], [some 1], [some 0]⟩
          ((fun k => if k = "A" then [0] else []) "A") "A")
        (check_effect [("A", ⟨[0], [some 1], [some 0]⟩)]
          (fun k => if k = "A" then [0] else []) "All")
    ∧ check_effect [("A", ⟨[0], [some 1], [some 0]⟩)]
        (fun k => if k = "A" then [0] else []) "All" =
        (([("A", ⟨[0], [some 1], [some 0]⟩)] : Store).map fun kdf =>
          determine_effect kdf.2 ((fun k => if k = "A" then [0] else []) kdf.1) kdf.1).foldl
          update_effects emptyEffects :=
  check_effect_scope [("A", ⟨[0], [some 1], [some 0]⟩)]
    (fun k => if k = "A" then [0] else []) "A" ⟨[0], [some 1], [some 0]⟩
    (by decide) (by decide)

/-- **C10.** For every nonempty change series and every percentile in
`(0, 50]`, the selected shock set is nonempty: the linear-interpolation
percentile of a nonempty array is at least its minimum and selection uses
`change ≤ P`, so the date of the minimum change always qualifies.  By
contrast, for a percentile above 50 the strict `change > P` comparison can
select the empty set, e.g. when all changes are equal. -/
theorem shock_set_nonempty (dates : List Nat) (chs : List ℚ) (close : List (Option ℚ))
    (q : ℚ) (hne : chs ≠ []) (hlen : dates.length = chs.length)
    (h0 : 0 < q) (h50 : q ≤ 50) :
    selectDates ⟨dates, close, chs.map some⟩ q ≠ []
    ∧ selectDates ⟨[0, 1], [some 1, some 1], List.map some [5, 5]⟩ 75 = [] := by
  refine ⟨?_, by with_unfolding_all decide⟩
  have hthr : thresholdP ⟨dates, close, chs.map some⟩ q =
      some (percentileLinear (sortChanges chs) q) := by
    simp [thresholdP]
  have hsorted : List.Sorted (· ≤ ·) (sortChanges chs) :=
    List.sorted_insertionSort _ chs
  have hperm : (sortChanges chs).Perm chs := List.perm_insertionSort _ chs
  have hsne : sortChanges chs ≠ [] := by
    intro h
    apply hne
    have hl := hperm.length_eq
    rw [h] at hl
    exact List.length_eq_zero.mp hl.symm
  have hslen : 0 < (sortChanges chs).length := List.length_pos.mpr hsne
  have hheadmem : (sortChanges chs).getD 0 0 ∈ chs := by
    apply hperm.mem_iff.mp
    rw [List.getD_eq_getElem _ 0 hslen]
    exact List.getElem_mem hslen
  have hPge : (sortChanges chs).getD 0 0 ≤ percentileLinear (sortChanges chs) q :=
    percentileLinear_ge_head (sortChanges chs) hsorted hsne q (le_of_lt h0)
      (by linarith)
  obtain ⟨i, hi, hieq⟩ := List.mem_iff_getElem.mp hheadmem
  have hlen2 : dates.length = (chs.map some).length := by simpa using hlen
  have hid : i < dates.length := by rw [hlen]; exact hi
  have hmem : dates[i] ∈ selectDates ⟨dates, close, chs.map some⟩ q := by
    simp only [selectDates, hthr]
    rw [if_pos h50,
      mem_selCol dates (chs.map some)
        (fun c => cellLE c (percentileLinear (sortChanges chs) q)) dates[i] hlen2]
    refine ⟨i, hid, rfl, ?_⟩
    rw [List.getD_eq_getElem _ none (by simpa using hi), List.getElem_map]
    simp only [cellLE, hieq, decide_eq_true_eq]
    exact hPge
  exact List.ne_nil_of_mem hmem

/-- Witness for C10 on a concrete two-day series at the 25th percentile. -/
theorem shock_set_nonempty_witness :
    selectDates ⟨[0, 1], [none, none], List.map some [0, -3]⟩ 25 ≠ []
    ∧ selectDates ⟨[0, 1], [some 1, some 1], List.map some [5, 5]⟩ 75 = [] :=
  shock_set_nonempty [0, 1] [0, -3] [none, none] 25 (by decide) (by decide)
    (by norm_num) (by norm_num)

/-- When both `assert` guards pass, `prepare` enriches every frame and
aggregates the effects over the enriched store. -/
theorem prepare_ok (store : Store) (q : ℚ) (scope : String)
    (h1 : ¬(scope ≠ "All" ∧ store.lookup scope = none))
    (h2 : 0 < q ∧ q ≤ 100) :
    prepare store q scope = .ok
      (check_effect (store.map fun kdf => (kdf.1, determine_change kdf.2))
        (fun k =>
          match (store.map fun kdf => (kdf.1, determine_change kdf.2)).lookup k with
          | some df => selectDates df q
          | none => []) scope,
       store.map fun kdf => (kdf.1, determine_change kdf.2)) := by
  rw [prepare, if_neg h1, if_neg (not_not_intro h2)]

/-- On a frame whose closes are all present, `determine_change` is
idempotent: the interpolation leaves the closes alone, so a second pass
recomputes the very same change column. -/
theorem determine_change_idem (df : DF) (h : ∀ c ∈ df.close, c.isSome) :
    determine_change (determine_change df) = determine_change df := by
  have hcl : interpList df.close = df.close := interpList_of_all_some _ h
  simp [determine_change, hcl]

/-- **C8 (amended).** For stores whose price series have no missing
values, `prepare` is idempotent: a successful call returns a store on
which a second call yields the very same output and store.  (With gaps in
the closes this fails — see the counterexample — because the first call's
in-place interpolation rewrites the closes the second call derives its
changes from.) -/
theorem prepare_idempotent (store : Store) (q : ℚ) (scope : String)
    (hall : ∀ kdf ∈ store, ∀ c ∈ kdf.2.close, c.isSome)
    (out : Effects) (st : Store)
    (h : prepare store q scope = .ok (out, st)) :
    prepare st q scope = .ok (out, st) := by
  by_cases h1 : scope ≠ "All" ∧ store.lookup scope = none
  · rw [prepare, if_pos h1] at h
    exact absurd h (by simp)
  · by_cases h2 : 0 < q ∧ q ≤ 100
    · rw [prepare_ok store q scope h1 h2] at h
      have hout : check_effect (store.map fun kdf => (kdf.1, determine_change kdf.2))
          (fun k =>
            match (store.map fun kdf => (kdf.1, determine_change kdf.2)).lookup k with
            | some df => selectDates df q
            | none => []) scope = out ∧
          store.map (fun kdf => (kdf.1, determine_change kdf.2)) = st := by
        have h3 := h
        simp only [Except.ok.injEq, Prod.mk.injEq] at h3
        exact h3
      obtain ⟨ho, hs⟩ := hout
      have hidem : st.map (fun kdf => (kdf.1, determine_change kdf.2)) = st := by
        rw [← hs, List.map_map]
        apply List.map_congr_left
        intro kdf hk
        have hc : ∀ c ∈ kdf.2.close, c.isSome := hall kdf hk
        simp only [Function.comp_apply]
        rw [determine_change_idem kdf.2 hc]
      have h1' : ¬(scope ≠ "All" ∧ st.lookup scope = none) := by
        rintro ⟨ha, hb⟩
        apply h1
        refine ⟨ha, ?_⟩
        rw [← hs, lookup_map_snd] at hb
        cases hlk : store.lookup scope with
        | none => rfl
        | some dfx => rw [hlk] at hb; exact absurd hb (by simp)
      rw [prepare_ok st q scope h1' h2, hidem, ← hs, ho]
    · rw [prepare, if_neg h1, if_pos (by exact h2)] at h
      exact absurd h (by simp)

/-- A store with a gap: the close at date 1 is missing (`NaN`). -/
def gapStore : Store :=
  [("A", ⟨[0, 1, 2, 3], [some 100, none, some 110, some 110], [none, none, none, none]⟩)]

/-- The store after the first `prepare` call (its in-place enrichment). -/
def gapStore1 : Store :=
  match prepare gapStore 50 "All" with
  | .ok (_, s) => s
  | .error _ => []

/-- Output of the first `prepare` call on the gapped store. -/
def gapOut1 : Effects :=
  match prepare gapStore 50 "All" with
  | .ok (o, _) => o
  | .error _ => emptyEffects

/-- Output of the second `prepare` call on the store the first call left
behind. -/
def gapOut2 : Effects :=
  match prepare gapStore1 50 "All" with
  | .ok (o, _) => o
  | .error _ => emptyEffects

/-- **C8 (counterexample).** On a store with a missing close, both calls
succeed but the outputs differ: the first call interpolates the stored
closes in place (100, NaN, 110, 110 becomes 100, 105, 110, 110), so the
second call computes different changes, a different percentile threshold
and a different shock set (4 rows the first time, 2 the second). -/
theorem prepare_not_idempotent_on_gaps :
    (prepare gapStore 50 "All").isOk = true
    ∧ (prepare gapStore1 50 "All").isOk = true
    ∧ gapOut1 ≠ gapOut2 := by
  with_unfolding_all decide

/-- A store with no missing closes. -/
def fullStore : Store :=
  [("A", ⟨[0, 1], [some 100, some 110], [none, none]⟩)]

/-- Output of `prepare` on the gap-free store. -/
def fullOut : Effects :=
  match prepare fullStore 50 "All" with
  | .ok (o, _) => o
  | .error _ => emptyEffects

/-- The store `prepare` leaves behind on the gap-free store. -/
def fullSt : Store :=
  match prepare fullStore 50 "All" with
  | .ok (_, s) => s
  | .error _ => []

/-- Witness for the amended C8: on the gap-free store a second `prepare`
reproduces the first call's output and store. -/
theorem prepare_idempotent_witness :
    prepare fullSt 50 "All" = .ok (fullOut, fullSt) :=
  prepare_idempotent fullStore 50 "All" (by decide) fullOut fullSt
    (by with_unfolding_all rfl)
